import Mathlib

/-!
Shallow embedding of the zsnip repository (src/fs.rs and src/zip.rs) and
verification of its specification.

Paths are modelled as strings over the Unix convention, parsed into the
component sequence produced by the Rust standard library's
`Path::components()` iterator.  External collaborators (the filesystem,
the `glob` crate, the `zip` crate, temporary-file creation) are modelled
as explicit oracle parameters, so every theorem quantifies over their
behaviour.
-/

namespace Zsnip

/-- A path component as produced by Rust std `Path::components()`.
`vol` stands for `Component::Prefix` (a Windows volume/drive prefix);
it never occurs in a Unix path string but is kept in the data type
because `fs.rs`'s `abs` has an arm for it. -/
inductive Component where
  | vol (s : String)
  | rootDir
  | curDir
  | parentDir
  | normal (s : String)
  deriving DecidableEq, Repr

/-- Split a character list on the separator character `/`.
Always returns a non-empty list of (possibly empty) segments. -/
def splitSlash : List Char → List (List Char)
  | [] => [[]]
  | c :: cs =>
    let r := splitSlash cs
    if c = '/' then [] :: r
    else (c :: r.headD []) :: r.tail

/-- The non-empty raw segments of a character list
(Rust std ignores repeated separators and a trailing separator). -/
def rawSegsL (l : List Char) : List (List Char) :=
  (splitSlash l).filter (fun seg => seg ≠ [])

/-- The non-empty raw segments of a path string. -/
def rawSegs (s : String) : List (List Char) :=
  rawSegsL s.data

/-- Interpret one raw segment as a component
(Rust std `Path::components()`, Unix rules). -/
def segToComp (seg : List Char) : Component :=
  if seg = ['.'] then Component.curDir
  else if seg = ['.', '.'] then Component.parentDir
  else Component.normal (String.mk seg)

/-- Interpret a non-leading raw segment: Rust std normalizes `.` away
everywhere except at the very beginning of a relative path. -/
def tailComp (seg : List Char) : Option Component :=
  if seg = ['.'] then none else some (segToComp seg)

/-- `Path::is_absolute()` on Unix: the string has a root. -/
def isAbsString (s : String) : Bool :=
  s.data.head? = some '/'

/-- Rust std `Path::components()` of a Unix path string, as a list. -/
def componentsOf (s : String) : List Component :=
  if isAbsString s then
    Component.rootDir :: (rawSegs s).filterMap tailComp
  else
    match rawSegs s with
    | [] => []
    | seg :: rest => segToComp seg :: rest.filterMap tailComp

/-- Rust std `PathBuf::push` of a relative path `b` onto `a`:
append, inserting a separator unless `a` is empty or already ends
with one. -/
def joinString (a b : String) : String :=
  if a.data = [] then b
  else if a.data.getLast? = some '/' then a ++ b
  else a ++ "/" ++ b

/-- Rust std `PathBuf::push` of the root directory: pushing an absolute
path replaces everything except the volume prefix of the receiver. -/
def pushRoot (ret : List Component) : List Component :=
  match ret with
  | Component.vol s :: _ => [Component.vol s, Component.rootDir]
  | _ => [Component.rootDir]

/-- Rust std `PathBuf::pop`: truncate to the parent; a no-op when the
path consists only of a root and/or a volume prefix (or is empty). -/
def popLast (ret : List Component) : List Component :=
  match ret.getLast? with
  | some Component.rootDir => ret
  | some (Component.vol _) => ret
  | some _ => ret.dropLast
  | none => ret

/-- One iteration of the component loop of `abs` (fs.rs lines 83-97).
The `vol` arm is `unreachable!()` in the source because a prefix
component can only occur first and is consumed before the loop; it is
modelled as the identity. -/
def absStep (ret : List Component) : Component → List Component
  | Component.vol _ => ret
  | Component.rootDir => pushRoot ret
  | Component.curDir => ret
  | Component.parentDir => popLast ret
  | Component.normal s => ret ++ [Component.normal s]

/-- The lexical-normalization part of `abs` (fs.rs lines 75-98): peel a
leading volume prefix into the accumulator, then fold `absStep` over the
remaining components. -/
def absComps (comps : List Component) : List Component :=
  match comps with
  | Component.vol s :: rest => rest.foldl absStep [Component.vol s]
  | _ => comps.foldl absStep []

/-- Modelled from the spec (§4.1), for the refinement comparison with
`absStep`: RootDir components are appended, CurDir is dropped, ParentDir
pops the last pushed component if any (popping past the root or the
preserved volume prefix is a no-op), normal components are appended in
order.  A non-leading volume component is left to behave as a no-op; it
never occurs in the inputs the comparison is stated for. -/
def specStep (state : List Component) : Component → List Component
  | Component.vol _ => state
  | Component.rootDir => state ++ [Component.rootDir]
  | Component.curDir => state
  | Component.parentDir =>
    match state.getLast? with
    | some (Component.normal _) => state.dropLast
    | _ => state
  | Component.normal s => state ++ [Component.normal s]

/-- Modelled from the spec (§4.1): a leading volume/drive component is
preserved, then the remaining components are processed by `specStep`. -/
def specNormalize (comps : List Component) : List Component :=
  match comps with
  | Component.vol s :: rest => rest.foldl specStep [Component.vol s]
  | _ => comps.foldl specStep []

/-- fs.rs `abs` (lines 64-99).  Oracles: `ex` models `Path::exists`,
`canon` models `dunce::canonicalize` (`none` = failure), `cwd` is the
value of `std::env::current_dir()`.  Returns the component list of the
resulting `PathBuf`, or `none` when an underlying call failed. -/
def abs (ex : String → Bool) (canon : String → Option (List Component))
    (cwd : String) (p : String) : Option (List Component) :=
  if ex p then canon p
  else
    let full := if isAbsString p then p else joinString cwd p
    some (absComps (componentsOf full))

/-- Rust std `Path::strip_prefix`: succeeds when the components of
`root` are a prefix of the components of `fp`, yielding the remaining
components. -/
def stripRootComps (root fp : String) : Option (List Component) :=
  let rc := componentsOf root
  let fc := componentsOf fp
  if rc.isPrefixOf fc then some (fc.drop rc.length) else none

/-- fs.rs lines 241-248: the path `is_interested_file` matches against:
an absolute `file_path` is stripped of the `root` prefix (failure means
the file is not under `root`), a relative one is used as-is. -/
def relPathOf (root file_path : String) : Option (List Component) :=
  if isAbsString file_path then stripRootComps root file_path
  else some (componentsOf file_path)

/-- External collaborator: the `glob` crate.  `parse` models
`glob::Pattern::new` (`none` = parse error) and `matchesWith` models
`Pattern::matches_path_with` together with the fixed `MatchOptions`
built at fs.rs lines 250-254. -/
structure GlobLib (Pat : Type) where
  parse : String → Option Pat
  matchesWith : Pat → List Component → Bool

/-- The `for pat in exclude_patterns` loop (fs.rs lines 257-268):
`false` as soon as a non-absolute, parsable pattern matches, `true`
when the loop falls through. -/
def excludeLoop {Pat : Type} (G : GlobLib Pat) (rel : List Component) :
    List String → Bool
  | [] => true
  | pat :: rest =>
    if isAbsString pat then excludeLoop G rel rest
    else
      match G.parse pat with
      | none => excludeLoop G rel rest
      | some p =>
        if G.matchesWith p rel then false else excludeLoop G rel rest

/-- The `for pat in include_patterns` loop (fs.rs lines 273-284):
`true` as soon as a non-absolute, parsable pattern matches, `false`
when the loop falls through. -/
def includeLoop {Pat : Type} (G : GlobLib Pat) (rel : List Component) :
    List String → Bool
  | [] => false
  | pat :: rest =>
    if isAbsString pat then includeLoop G rel rest
    else
      match G.parse pat with
      | none => includeLoop G rel rest
      | some p =>
        if G.matchesWith p rel then true else includeLoop G rel rest

/-- Whether a single pattern counts as matching `rel`: absolute pattern
strings and unparsable pattern strings never match. -/
def patMatches {Pat : Type} (G : GlobLib Pat) (rel : List Component)
    (pat : String) : Bool :=
  if isAbsString pat then false
  else
    match G.parse pat with
    | none => false
    | some p => G.matchesWith p rel

/-- The pattern-branch part of `is_interested_file`
(fs.rs lines 256-288). -/
def patternDecision {Pat : Type} (G : GlobLib Pat) (rel : List Component)
    (include_patterns exclude_patterns : List String) : Bool :=
  if exclude_patterns.isEmpty = false then excludeLoop G rel exclude_patterns
  else if include_patterns.isEmpty = false then includeLoop G rel include_patterns
  else true

/-- fs.rs `is_interested_file` (lines 223-289).  Oracle: `is_file`
models `Path::is_file` (the file exists and is a regular file). -/
def is_interested_file {Pat : Type} (G : GlobLib Pat)
    (is_file : String → Bool) (root file_path : String)
    (include_patterns exclude_patterns : List String) : Bool :=
  if is_file file_path = false then false
  else
    match relPathOf root file_path with
    | none => false
    | some rel => patternDecision G rel include_patterns exclude_patterns

/-- fs.rs `Copier` (lines 101-107). -/
structure Copier where
  src : List String
  dst : String
  includes : List String
  excludes : List String
  deriving DecidableEq, Repr

/-- fs.rs `CopierBuilder` (lines 169-171). -/
structure CopierBuilder where
  copier : Copier
  deriving DecidableEq, Repr

/-- fs.rs `CopierBuilder::new` (lines 174-183). -/
def CopierBuilder.new (dst : String) : CopierBuilder :=
  { copier := { src := [], dst := dst, includes := [], excludes := [] } }

/-- fs.rs `CopierBuilder::add` (lines 185-188). -/
def CopierBuilder.add (b : CopierBuilder) (src : String) : CopierBuilder :=
  { b with copier := { b.copier with src := b.copier.src ++ [src] } }

/-- fs.rs `CopierBuilder::ipat` (lines 190-193). -/
def CopierBuilder.ipat (b : CopierBuilder) (pat : String) : CopierBuilder :=
  { b with copier := { b.copier with includes := b.copier.includes ++ [pat] } }

/-- fs.rs `CopierBuilder::epat` (lines 195-198), translated exactly as
written: the argument is pushed onto `includes`. -/
def CopierBuilder.epat (b : CopierBuilder) (epat : String) : CopierBuilder :=
  { b with copier := { b.copier with includes := b.copier.includes ++ [epat] } }

/-- fs.rs `CopierBuilder::build` (lines 200-202). -/
def CopierBuilder.build (b : CopierBuilder) : Copier :=
  b.copier

/-- What `Copier::run` decides to do about the destination directory
before any copying. -/
inductive DstPolicy where
  /-- zero sources: `return Ok(())` immediately, nothing is created. -/
  | earlyOk
  /-- `mkdir(&[self.dst])` is executed before the copy loop. -/
  | createDst
  /-- the destination is not pre-created. -/
  | skipCreate
  deriving DecidableEq, Repr

/-- fs.rs `Copier::run`, lines 110-118: the destination pre-creation
policy.  Oracle: `is_file` models `Path::is_file`. -/
def runDstPolicy (is_file : String → Bool) (c : Copier) : DstPolicy :=
  match c.src with
  | [] => DstPolicy.earlyOk
  | [s] => if is_file s then DstPolicy.skipCreate else DstPolicy.createDst
  | _ => DstPolicy.createDst

/-- A filesystem effect performed by `unpack`. -/
inductive FsAction where
  | createDirAll (p : String)
  | extract (p : String)
  deriving DecidableEq, Repr

/-- The tail of `unpack` (zip.rs lines 52-54): open the archive from the
buffer and extract it into `dstdir`.  Oracles: `archiveOk` models
`zip::ZipArchive::new`, `extractOk` models `archiver.extract`.  Returns
the completed filesystem actions and the error, if any. -/
def unpackExtract (archiveOk extractOk : Bool) (dstdir : String)
    (acts : List FsAction) : List FsAction × Option String :=
  if archiveOk = false then (acts, some "failed to open zip archive")
  else if extractOk = false then (acts, some "failed to extract zip archive")
  else (acts ++ [FsAction.extract dstdir], none)

/-- zip.rs `unpack` (lines 39-55).  Oracles: `dstExists`/`dstIsDir`
model `Path::exists`/`Path::is_dir` on `dstdir`, `mkdirOk` models
`fs::create_dir_all`.  Returns the completed filesystem actions and the
error, if any. -/
def unpack (dstExists dstIsDir mkdirOk archiveOk extractOk : Bool)
    (dstdir : String) : List FsAction × Option String :=
  if dstExists then
    if dstIsDir = false then
      ([], some ("zip unpack destination " ++ dstdir ++ " must be a directory"))
    else unpackExtract archiveOk extractOk dstdir []
  else
    if mkdirOk then
      unpackExtract archiveOk extractOk dstdir [FsAction.createDirAll dstdir]
    else ([], some "failed to create destination directory")

/-- zip.rs `pack` (lines 11-37).  Oracles: `tempOk` models
`tempfile::NamedTempFile::new`, `isDir`/`isFileP` model
`Path::is_dir`/`Path::is_file` on `srcpath`, and `zipResult` models the
whole directory-zipping pipeline (`zip_dir` plus reading the temporary
file back), `none` meaning one of its steps failed. -/
def pack (tempOk : Bool) (isDir isFileP : Bool)
    (zipResult : Option (List Nat)) (srcpath : String) :
    Except String (List Nat) :=
  if tempOk = false then Except.error "failed to create temporary file"
  else if isDir then
    match zipResult with
    | some bytes => Except.ok bytes
    | none => Except.error "failed to zip directory"
  else if isFileP then Except.ok []
  else Except.error (srcpath ++ " is neither a file or directory")

/-- Whether an `Except` value is an error. -/
def isErrorB {ε α : Type} : Except ε α → Bool
  | Except.error _ => true
  | Except.ok _ => false

/-- A concrete glob library used to instantiate theorems: every pattern
string except the unparsable "[" parses to itself, and a pattern matches
exactly when it is the string "*". -/
def demoLib : GlobLib String where
  parse := fun s => if s = "[" then none else some s
  matchesWith := fun p _ => p = "*"

/-- A filesystem on which every path is an existing regular file. -/
def allFiles : String → Bool := fun _ => true

/-- A filesystem on which no path is a regular file. -/
def noFiles : String → Bool := fun _ => false

/-- A component that can occur after the head of a parsed path:
anything except a root or a volume prefix. -/
def plainComp : Component → Bool
  | Component.rootDir => false
  | Component.vol _ => false
  | _ => true

/-- A component that can occur in the accumulator built by `absStep`:
a volume prefix, a root, or a normal component. -/
def stateComp : Component → Bool
  | Component.curDir => false
  | Component.parentDir => false
  | _ => true

/-- An existence oracle for which exactly the path "/home" exists. -/
def exHome : String → Bool := fun s => s == "/home"

/-- A canonicalization oracle that resolves "/home" to itself. -/
def canonHome : String → Option (List Component) :=
  fun s => if s == "/home" then some (componentsOf "/home") else none

/-! ### Characterizations of the two pattern loops -/

theorem excludeLoop_eq_not_any {Pat : Type} (G : GlobLib Pat)
    (rel : List Component) (l : List String) :
    excludeLoop G rel l = !(l.any (patMatches G rel)) := by
  induction l with
  | nil => rfl
  | cons p rest ih =>
    simp only [excludeLoop, List.any_cons, patMatches]
    cases habs : isAbsString p with
    | true => simp [habs, ih]
    | false =>
      cases hp : G.parse p with
      | none => simp [habs, hp, ih]
      | some q =>
        cases hm : G.matchesWith q rel with
        | true => simp [habs, hp, hm]
        | false => simp [habs, hp, hm, ih]

theorem includeLoop_eq_any {Pat : Type} (G : GlobLib Pat)
    (rel : List Component) (l : List String) :
    includeLoop G rel l = l.any (patMatches G rel) := by
  induction l with
  | nil => rfl
  | cons p rest ih =>
    simp only [includeLoop, List.any_cons, patMatches]
    cases habs : isAbsString p with
    | true => simp [habs, ih]
    | false =>
      cases hp : G.parse p with
      | none => simp [habs, hp, ih]
      | some q =>
        cases hm : G.matchesWith q rel with
        | true => simp [habs, hp, hm]
        | false => simp [habs, hp, hm, ih]

theorem patMatches_of_absolute {Pat : Type} (G : GlobLib Pat)
    (rel : List Component) (pat : String) (h : isAbsString pat = true) :
    patMatches G rel pat = false := by
  simp [patMatches, h]

theorem patMatches_of_unparsable {Pat : Type} (G : GlobLib Pat)
    (rel : List Component) (pat : String) (h : G.parse pat = none) :
    patMatches G rel pat = false := by
  cases habs : isAbsString pat with
  | true => simp [patMatches, habs]
  | false => simp [patMatches, habs, h]

theorem isEmpty_false_of_ne_nil {α : Type} {l : List α} (h : l ≠ []) :
    l.isEmpty = false := by
  cases l with
  | nil => exact absurd rfl h
  | cons a t => rfl

/-! ### C1 -/

/-- C1: for an existing regular file under `root` (the root-relative
path `r` is obtained), a non-empty exclude set is the sole decision
criterion: `is_interested_file` returns `false` exactly when some
non-absolute, parsable exclude pattern matches `r`, and `true`
otherwise; the include patterns `incl` do not occur in the result. -/
theorem c1_exclude_short_circuit {Pat : Type} (G : GlobLib Pat)
    (f : String → Bool) (root fp : String) (incl excl : List String)
    (r : List Component) (hf : f fp = true)
    (hrel : relPathOf root fp = some r) (hne : excl ≠ []) :
    is_interested_file G f root fp incl excl
      = !(excl.any (patMatches G r)) := by
  have hie : excl.isEmpty = false := isEmpty_false_of_ne_nil hne
  unfold is_interested_file
  rw [hf, hrel]
  simp [patternDecision, hie, excludeLoop_eq_not_any]

theorem c1_witness :
    is_interested_file demoLib allFiles "r" "a.txt" ["x"] ["*"]
      = !((["*"] : List String).any (patMatches demoLib (componentsOf "a.txt"))) :=
  c1_exclude_short_circuit demoLib allFiles "r" "a.txt" ["x"] ["*"]
    (componentsOf "a.txt") rfl (by decide) (by decide)

/-! ### C2 -/

/-- C2: the builder method `epat` as written in fs.rs lines 195-198
appends its argument to the `includes` list and leaves `excludes`
untouched; in particular a copier built through `new` followed by
`epat p` has empty `excludes` and `[p]` as `includes`.  This refutes
the claim that `epat` appends to the exclude pattern list. -/
theorem c2_epat_appends_to_includes (b : CopierBuilder) (d p : String) :
    ((b.epat p).build).includes = b.copier.includes ++ [p] ∧
    ((b.epat p).build).excludes = b.copier.excludes ∧
    (((CopierBuilder.new d).epat p).build).excludes = [] ∧
    (((CopierBuilder.new d).epat p).build).includes = [p] :=
  ⟨rfl, rfl, rfl, rfl⟩

/-! ### Inert patterns do not change the loops -/

theorem excludeLoop_insert_inert {Pat : Type} (G : GlobLib Pat)
    (rel : List Component) (l1 l2 : List String) (a : String)
    (hin : patMatches G rel a = false) :
    excludeLoop G rel (l1 ++ a :: l2) = excludeLoop G rel (l1 ++ l2) := by
  rw [excludeLoop_eq_not_any, excludeLoop_eq_not_any]
  simp [List.any_append, List.any_cons, hin]

theorem includeLoop_insert_inert {Pat : Type} (G : GlobLib Pat)
    (rel : List Component) (l1 l2 : List String) (a : String)
    (hin : patMatches G rel a = false) :
    includeLoop G rel (l1 ++ a :: l2) = includeLoop G rel (l1 ++ l2) := by
  rw [includeLoop_eq_any, includeLoop_eq_any]
  simp [List.any_append, List.any_cons, hin]

theorem patternDecision_insert_excl {Pat : Type} (G : GlobLib Pat)
    (r : List Component) (incl l1 l2 : List String) (a : String)
    (hin : patMatches G r a = false) (hne : l1 ++ l2 ≠ []) :
    patternDecision G r incl (l1 ++ a :: l2)
      = patternDecision G r incl (l1 ++ l2) := by
  have h1 : (l1 ++ a :: l2).isEmpty = false :=
    isEmpty_false_of_ne_nil (by simp)
  have h2 : (l1 ++ l2).isEmpty = false := isEmpty_false_of_ne_nil hne
  simp [patternDecision, h1, h2, excludeLoop_insert_inert G r l1 l2 a hin]

theorem patternDecision_insert_incl {Pat : Type} (G : GlobLib Pat)
    (r : List Component) (excl l1 l2 : List String) (a : String)
    (hin : patMatches G r a = false) (hne : l1 ++ l2 ≠ []) :
    patternDecision G r (l1 ++ a :: l2) excl
      = patternDecision G r (l1 ++ l2) excl := by
  have h1 : (l1 ++ a :: l2).isEmpty = false :=
    isEmpty_false_of_ne_nil (by simp)
  have h2 : (l1 ++ l2).isEmpty = false := isEmpty_false_of_ne_nil hne
  cases he : excl.isEmpty with
  | false => simp [patternDecision, he]
  | true => simp [patternDecision, he, h1, h2,
      includeLoop_insert_inert G r l1 l2 a hin]

/-! ### C3 -/

/-- C3 counterexample: inserting the absolute pattern string "/a" into
an empty exclude set changes the result of `is_interested_file` from
`false` to `true`, because the non-emptiness test at fs.rs line 256 now
selects the exclude branch and the include patterns are no longer
consulted.  This refutes the claim that an absolute pattern is always
equivalent to omitting it. -/
theorem c3_counterexample :
    isAbsString "/a" = true ∧
    is_interested_file demoLib allFiles "r" "b.log" ["*.txt"] ["/a"] = true ∧
    is_interested_file demoLib allFiles "r" "b.log" ["*.txt"] [] = false := by
  decide

/-- C3 (amended): an absolute-path pattern string added to either
pattern set never changes the result of `is_interested_file`, provided
the pattern set it is added to is non-empty without it. -/
theorem c3_absolute_inert_nonempty {Pat : Type} (G : GlobLib Pat)
    (f : String → Bool) (root fp : String) (incl excl l1 l2 : List String)
    (a : String) (ha : isAbsString a = true) (hne : l1 ++ l2 ≠ []) :
    (is_interested_file G f root fp incl (l1 ++ a :: l2)
      = is_interested_file G f root fp incl (l1 ++ l2)) ∧
    (is_interested_file G f root fp (l1 ++ a :: l2) excl
      = is_interested_file G f root fp (l1 ++ l2) excl) := by
  constructor
  · cases hf : f fp with
    | false => simp [is_interested_file, hf]
    | true =>
      cases hrel : relPathOf root fp with
      | none => simp [is_interested_file, hf, hrel]
      | some r =>
        simp [is_interested_file, hf, hrel,
          patternDecision_insert_excl G r incl l1 l2 a
            (patMatches_of_absolute G r a ha) hne]
  · cases hf : f fp with
    | false => simp [is_interested_file, hf]
    | true =>
      cases hrel : relPathOf root fp with
      | none => simp [is_interested_file, hf, hrel]
      | some r =>
        simp [is_interested_file, hf, hrel,
          patternDecision_insert_incl G r excl l1 l2 a
            (patMatches_of_absolute G r a ha) hne]

theorem c3_witness :
    (is_interested_file demoLib allFiles "r" "a.txt" ["*"] (["q"] ++ "/a" :: [])
      = is_interested_file demoLib allFiles "r" "a.txt" ["*"] (["q"] ++ [])) ∧
    (is_interested_file demoLib allFiles "r" "a.txt" (["q"] ++ "/a" :: []) ["*"]
      = is_interested_file demoLib allFiles "r" "a.txt" (["q"] ++ []) ["*"]) :=
  c3_absolute_inert_nonempty demoLib allFiles "r" "a.txt" ["*"] ["*"]
    ["q"] [] "/a" (by decide) (by decide)

/-! ### C4 -/

/-- C4 counterexample: with both pattern sets empty, a path that the
filesystem oracle reports as an existing regular file but that is not
under `root` yields `false` (the strip at fs.rs lines 242-244 fails),
refuting "returns true for every path that denotes an existing regular
file". -/
theorem c4_counterexample :
    allFiles "/other/a" = true ∧
    is_interested_file demoLib allFiles "/r" "/other/a"
      ([] : List String) [] = false := by
  decide

/-- C4 (amended): with both pattern sets empty, `is_interested_file`
returns `true` for every existing regular file whose path is relative
or lies under `root` (the root-relative path is obtained); and for
every pattern configuration it returns `false` for every path that is
not an existing regular file. -/
theorem c4_empty_patterns {Pat : Type} (G : GlobLib Pat)
    (f : String → Bool) (root fp : String) (incl excl : List String) :
    (f fp = true → (relPathOf root fp).isSome = true →
      is_interested_file G f root fp [] [] = true) ∧
    (f fp = false → is_interested_file G f root fp incl excl = false) := by
  constructor
  · intro hf hsome
    obtain ⟨r, hr⟩ := Option.isSome_iff_exists.mp hsome
    simp [is_interested_file, hf, hr, patternDecision]
  · intro hf
    simp [is_interested_file, hf]

theorem c4_witness :
    is_interested_file demoLib allFiles "/r" "/r/a" [] [] = true ∧
    is_interested_file demoLib noFiles "/r" "/r/a" ["*"] ["*"] = false :=
  ⟨(c4_empty_patterns demoLib allFiles "/r" "/r/a" [] []).1 rfl (by decide),
   (c4_empty_patterns demoLib noFiles "/r" "/r/a" ["*"] ["*"]).2 rfl⟩

/-! ### C5 -/

/-- C5: an absolute `file_path` is stripped of the `root` prefix and
the function returns `false` when the stripping fails; when stripping
succeeds the decision is taken on the stripped root-relative path, and
a relative `file_path` is matched as-is (its own components are used). -/
theorem c5_path_to_match {Pat : Type} (G : GlobLib Pat)
    (f : String → Bool) (root fp : String) (incl excl : List String) :
    (isAbsString fp = true → stripRootComps root fp = none →
      is_interested_file G f root fp incl excl = false) ∧
    (∀ r, f fp = true → isAbsString fp = true →
      stripRootComps root fp = some r →
      is_interested_file G f root fp incl excl
        = patternDecision G r incl excl) ∧
    (f fp = true → isAbsString fp = false →
      is_interested_file G f root fp incl excl
        = patternDecision G (componentsOf fp) incl excl) := by
  refine ⟨?_, ?_, ?_⟩
  · intro habs hstrip
    cases hf : f fp <;>
      simp [is_interested_file, relPathOf, habs, hstrip, hf]
  · intro r hf habs hstrip
    simp [is_interested_file, relPathOf, hf, habs, hstrip]
  · intro hf habs
    simp [is_interested_file, relPathOf, hf, habs]

theorem c5_witness :
    is_interested_file demoLib allFiles "/r" "/other/a" ["*"] [] = false ∧
    is_interested_file demoLib allFiles "/r" "/r/a" ["*"] ["q"]
      = patternDecision demoLib [Component.normal "a"] ["*"] ["q"] ∧
    is_interested_file demoLib allFiles "/r" "sub/a" ["*"] ["q"]
      = patternDecision demoLib (componentsOf "sub/a") ["*"] ["q"] :=
  ⟨(c5_path_to_match demoLib allFiles "/r" "/other/a" ["*"] []).1
      (by decide) (by decide),
   (c5_path_to_match demoLib allFiles "/r" "/r/a" ["*"] ["q"]).2.1
      [Component.normal "a"] rfl (by decide) (by decide),
   (c5_path_to_match demoLib allFiles "/r" "sub/a" ["*"] ["q"]).2.2
      rfl (by decide)⟩

/-! ### C6 -/

/-- C6: a pattern string whose glob parse fails is silently skipped in
both loops: it never matches, and its presence anywhere in the exclude
or include loop leaves the loop's verdict on the remaining patterns
unchanged (and no error is possible: both loops are total). -/
theorem c6_unparsable_skipped {Pat : Type} (G : GlobLib Pat)
    (rel : List Component) (pat : String) (l1 l2 : List String)
    (hp : G.parse pat = none) :
    patMatches G rel pat = false ∧
    excludeLoop G rel (l1 ++ pat :: l2) = excludeLoop G rel (l1 ++ l2) ∧
    includeLoop G rel (l1 ++ pat :: l2) = includeLoop G rel (l1 ++ l2) := by
  have h := patMatches_of_unparsable G rel pat hp
  exact ⟨h, excludeLoop_insert_inert G rel l1 l2 pat h,
    includeLoop_insert_inert G rel l1 l2 pat h⟩

theorem c6_witness :
    patMatches demoLib [Component.normal "a"] "[" = false ∧
    excludeLoop demoLib [Component.normal "a"] (["*"] ++ "[" :: [])
      = excludeLoop demoLib [Component.normal "a"] (["*"] ++ []) ∧
    includeLoop demoLib [Component.normal "a"] (["*"] ++ "[" :: [])
      = includeLoop demoLib [Component.normal "a"] (["*"] ++ []) :=
  c6_unparsable_skipped demoLib [Component.normal "a"] "[" ["*"] []
    (by decide)

/-! ### C8 -/

/-- C8: `Copier::run` with zero sources returns success immediately
without creating anything; with exactly one source that is a regular
file the destination is not pre-created; in every other case (one
non-file source, or at least two sources of any kind) the destination
directory is created before any copying begins. -/
theorem c8_dst_creation_policy (f : String → Bool) (c : Copier) :
    (c.src = [] → runDstPolicy f c = DstPolicy.earlyOk) ∧
    (∀ s, c.src = [s] → f s = true →
      runDstPolicy f c = DstPolicy.skipCreate) ∧
    (∀ s, c.src = [s] → f s = false →
      runDstPolicy f c = DstPolicy.createDst) ∧
    (2 ≤ c.src.length → runDstPolicy f c = DstPolicy.createDst) := by
  refine ⟨?_, ?_, ?_, ?_⟩
  · intro h
    simp [runDstPolicy, h]
  · intro s h hf
    simp [runDstPolicy, h, hf]
  · intro s h hf
    simp [runDstPolicy, h, hf]
  · intro h
    match hs : c.src with
    | [] => rw [hs] at h; simp at h
    | [s] => rw [hs] at h; simp at h
    | s1 :: s2 :: rest => simp [runDstPolicy, hs]

theorem c8_witness :
    runDstPolicy allFiles (((CopierBuilder.new "d").add "s").build)
      = DstPolicy.skipCreate ∧
    runDstPolicy noFiles (((CopierBuilder.new "d").add "s").build)
      = DstPolicy.createDst ∧
    runDstPolicy allFiles (CopierBuilder.new "d").build
      = DstPolicy.earlyOk ∧
    runDstPolicy allFiles ((((CopierBuilder.new "d").add "s").add "t").build)
      = DstPolicy.createDst :=
  ⟨(c8_dst_creation_policy allFiles
      (((CopierBuilder.new "d").add "s").build)).2.1 "s" rfl rfl,
   (c8_dst_creation_policy noFiles
      (((CopierBuilder.new "d").add "s").build)).2.2.1 "s" rfl rfl,
   (c8_dst_creation_policy allFiles (CopierBuilder.new "d").build).1 rfl,
   (c8_dst_creation_policy allFiles
      ((((CopierBuilder.new "d").add "s").add "t").build)).2.2.2 (by decide)⟩

/-! ### C9 -/

/-- C9: `unpack` returns the destination-must-be-a-directory error,
having performed no filesystem action, when `dstdir` exists and is not
a directory; when `dstdir` does not exist (and its creation succeeds)
the first filesystem action is the recursive creation of `dstdir`, so
it precedes any extraction. -/
theorem c9_unpack_destination (dstExists dstIsDir mkdirOk archiveOk
    extractOk : Bool) (d : String) :
    (dstExists = true → dstIsDir = false →
      unpack dstExists dstIsDir mkdirOk archiveOk extractOk d
        = ([], some ("zip unpack destination " ++ d
            ++ " must be a directory"))) ∧
    (dstExists = false → mkdirOk = true →
      (unpack dstExists dstIsDir mkdirOk archiveOk extractOk d).1.head?
        = some (FsAction.createDirAll d)) := by
  constructor
  · intro he hd
    simp [unpack, he, hd]
  · intro he hm
    cases ha : archiveOk <;> cases hx : extractOk <;>
      simp [unpack, unpackExtract, he, hm, ha, hx]

theorem c9_witness :
    unpack true false true true true "dst"
      = ([], some ("zip unpack destination " ++ "dst"
          ++ " must be a directory")) ∧
    (unpack false false true true true "dst").1.head?
      = some (FsAction.createDirAll "dst") :=
  ⟨(c9_unpack_destination true false true true true "dst").1 rfl rfl,
   (c9_unpack_destination false false true true true "dst").2 rfl rfl⟩

/-! ### C10 -/

/-- C10: given that the temporary file is created successfully, `pack`
on an existing regular file (not a directory) returns success with an
empty byte buffer; and given additionally that the directory-zipping
pipeline succeeds, `pack` returns an error exactly when `srcpath` is
neither a regular file nor a directory. -/
theorem c10_pack_file_empty (tempOk isDir isFileP : Bool)
    (zr : Option (List Nat)) (src : String) (ht : tempOk = true) :
    (isDir = false → isFileP = true →
      pack tempOk isDir isFileP zr src = Except.ok []) ∧
    (zr.isSome = true →
      isErrorB (pack tempOk isDir isFileP zr src)
        = (!isDir && !isFileP)) := by
  constructor
  · intro hd hf
    simp [pack, ht, hd, hf]
  · intro hz
    obtain ⟨bytes, hb⟩ := Option.isSome_iff_exists.mp hz
    cases hd : isDir <;> cases hf : isFileP <;>
      simp [pack, isErrorB, ht, hd, hf, hb]

theorem c10_witness :
    pack true false true (some [1]) "src/a.txt" = Except.ok [] ∧
    isErrorB (pack true false false (some [1]) "missing")
      = (!false && !false) :=
  ⟨(c10_pack_file_empty true false true (some [1]) "src/a.txt" rfl).1
      rfl rfl,
   (c10_pack_file_empty true false false (some [1]) "missing" rfl).2 rfl⟩

/-! ### Path-parsing lemmas for C7 -/

theorem splitSlash_ne_nil (l : List Char) : splitSlash l ≠ [] := by
  cases l with
  | nil => simp [splitSlash]
  | cons c cs =>
    simp only [splitSlash]
    by_cases h : c = '/' <;> simp [h]

theorem splitSlash_append (xs ys : List Char) :
    splitSlash (xs ++ '/' :: ys) = splitSlash xs ++ splitSlash ys := by
  induction xs with
  | nil => simp [splitSlash]
  | cons c cs ih =>
    by_cases h : c = '/'
    · subst h; simp [splitSlash, ih]
    · obtain ⟨h0, t0, hsc⟩ : ∃ h0 t0, splitSlash cs = h0 :: t0 := by
        cases hc : splitSlash cs with
        | nil => exact absurd hc (splitSlash_ne_nil cs)
        | cons a b => exact ⟨a, b, rfl⟩
      simp [splitSlash, ih, h, hsc]

theorem rawSegsL_append (xs ys : List Char) :
    rawSegsL (xs ++ '/' :: ys) = rawSegsL xs ++ rawSegsL ys := by
  simp [rawSegsL, splitSlash_append, List.filter_append]

theorem rawSegsL_concat_slash (l : List Char) :
    rawSegsL (l ++ ['/']) = rawSegsL l := by
  have h : l ++ ['/'] = l ++ '/' :: [] := rfl
  rw [h, rawSegsL_append]
  simp [rawSegsL, splitSlash]

theorem rawSegs_join (a b : String) (ha : a.data ≠ []) :
    rawSegs (joinString a b) = rawSegs a ++ rawSegs b := by
  unfold joinString rawSegs
  rw [if_neg ha]
  by_cases hl : a.data.getLast? = some '/'
  · rw [if_pos hl]
    have h2 : a.data.getLast ha = '/' := by
      rw [List.getLast?_eq_getLast a.data ha] at hl
      exact Option.some.inj hl
    have hdecomp : a.data = a.data.dropLast ++ ['/'] := by
      have h1 := List.dropLast_append_getLast ha
      rw [h2] at h1
      exact h1.symm
    rw [String.data_append]
    calc rawSegsL (a.data ++ b.data)
        = rawSegsL ((a.data.dropLast ++ ['/']) ++ b.data) := by
          rw [← hdecomp]
      _ = rawSegsL (a.data.dropLast ++ '/' :: b.data) := by
          rw [List.append_assoc]
          rfl
      _ = rawSegsL a.data.dropLast ++ rawSegsL b.data := rawSegsL_append _ _
      _ = rawSegsL a.data ++ rawSegsL b.data := by
          conv_rhs => rw [hdecomp]
          rw [rawSegsL_concat_slash]
  · rw [if_neg hl]
    have hsl : ("/" : String).data = ['/'] := by decide
    have h3 : (a ++ "/" ++ b).data = a.data ++ '/' :: b.data := by
      rw [String.data_append, String.data_append, hsl, List.append_assoc]
      rfl
    rw [h3, rawSegsL_append]

theorem isAbsString_join (a b : String) (ha : isAbsString a = true) :
    isAbsString (joinString a b) = true := by
  have hne : a.data ≠ [] := by
    intro h
    rw [isAbsString, h] at ha
    simp at ha
  obtain ⟨c, cs, hc⟩ : ∃ c cs, a.data = c :: cs := by
    cases h : a.data with
    | nil => exact absurd h hne
    | cons c cs => exact ⟨c, cs, rfl⟩
  have hc' : c = '/' := by
    rw [isAbsString, hc] at ha
    simpa using ha
  subst hc'
  unfold joinString
  rw [if_neg hne]
  by_cases hl : a.data.getLast? = some '/'
  · rw [if_pos hl]
    simp [isAbsString, String.data_append, hc]
  · rw [if_neg hl]
    simp [isAbsString, String.data_append, hc]

theorem componentsOf_join (a b : String) (ha : isAbsString a = true) :
    componentsOf (joinString a b)
      = componentsOf a ++ (rawSegs b).filterMap tailComp := by
  have hne : a.data ≠ [] := by
    intro h
    rw [isAbsString, h] at ha
    simp at ha
  unfold componentsOf
  simp only [isAbsString_join a b ha, ha, if_true]
  rw [rawSegs_join a b hne, List.filterMap_append]
  simp

/-! ### Normalization-fold lemmas for C7 -/

theorem foldl_absStep_normals (ws : List String) (acc : List Component) :
    (ws.map Component.normal).foldl absStep acc
      = acc ++ ws.map Component.normal := by
  induction ws generalizing acc with
  | nil => simp
  | cons w rest ih =>
    simp only [List.map_cons, List.foldl_cons, absStep]
    rw [ih]
    simp [List.append_assoc]

theorem segToComp_plain (seg : List Char) :
    plainComp (segToComp seg) = true := by
  by_cases h1 : seg = ['.']
  · simp [segToComp, h1, plainComp]
  · by_cases h2 : seg = ['.', '.'] <;> simp [segToComp, h1, h2, plainComp]

theorem filterMap_tailComp_plain (segs : List (List Char)) :
    ∀ c ∈ segs.filterMap tailComp, plainComp c = true := by
  intro c hc
  obtain ⟨seg, _, hseg⟩ := List.mem_filterMap.mp hc
  unfold tailComp at hseg
  by_cases h : seg = ['.']
  · rw [if_pos h] at hseg
    cases hseg
  · rw [if_neg h] at hseg
    have h2 := Option.some.inj hseg
    rw [← h2]
    exact segToComp_plain seg

theorem foldl_absStep_eq_specStep (l : List Component) :
    ∀ acc, (∀ c ∈ l, plainComp c = true) →
      (∀ c ∈ acc, stateComp c = true) →
      l.foldl absStep acc = l.foldl specStep acc := by
  induction l with
  | nil => intro acc _ _; rfl
  | cons c rest ih =>
    intro acc hl hacc
    have hc : plainComp c = true := hl c (List.mem_cons_self c rest)
    have hrest : ∀ x ∈ rest, plainComp x = true :=
      fun x hx => hl x (List.mem_cons_of_mem c hx)
    rw [List.foldl_cons, List.foldl_cons]
    cases c with
    | vol s => simp [plainComp] at hc
    | rootDir => simp [plainComp] at hc
    | curDir =>
      rw [show absStep acc Component.curDir = acc from rfl,
          show specStep acc Component.curDir = acc from rfl]
      exact ih acc hrest hacc
    | normal s =>
      rw [show absStep acc (Component.normal s)
            = acc ++ [Component.normal s] from rfl,
          show specStep acc (Component.normal s)
            = acc ++ [Component.normal s] from rfl]
      refine ih _ hrest ?_
      intro x hx
      rcases List.mem_append.mp hx with h | h
      · exact hacc x h
      · simp at h
        rw [h]
        rfl
    | parentDir =>
      cases hg : acc.getLast? with
      | none =>
        rw [show absStep acc Component.parentDir = popLast acc from rfl,
            show specStep acc Component.parentDir
              = (match acc.getLast? with
                 | some (Component.normal _) => acc.dropLast
                 | _ => acc) from rfl]
        rw [popLast, hg]
        exact ih acc hrest hacc
      | some x =>
        have hx : stateComp x = true := by
          refine hacc x (List.mem_of_mem_getLast? ?_)
          rw [hg]
          rfl
        rw [show absStep acc Component.parentDir = popLast acc from rfl,
            show specStep acc Component.parentDir
              = (match acc.getLast? with
                 | some (Component.normal _) => acc.dropLast
                 | _ => acc) from rfl]
        rw [popLast, hg]
        cases x with
        | curDir => simp [stateComp] at hx
        | parentDir => simp [stateComp] at hx
        | vol s => exact ih acc hrest hacc
        | rootDir => exact ih acc hrest hacc
        | normal s =>
          refine ih _ hrest ?_
          intro y hy
          exact hacc y ((List.dropLast_sublist acc).subset hy)

theorem absComps_eq_of_plain_head (c0 : Component) (tail : List Component)
    (h0 : plainComp c0 = true) (ht : ∀ c ∈ tail, plainComp c = true) :
    absComps (c0 :: tail) = specNormalize (c0 :: tail) := by
  cases c0 with
  | vol s => simp [plainComp] at h0
  | rootDir => simp [plainComp] at h0
  | curDir =>
    show (Component.curDir :: tail).foldl absStep []
      = (Component.curDir :: tail).foldl specStep []
    rw [List.foldl_cons, List.foldl_cons]
    exact foldl_absStep_eq_specStep tail [] ht (by intro c hc; simp at hc)
  | parentDir =>
    show (Component.parentDir :: tail).foldl absStep []
      = (Component.parentDir :: tail).foldl specStep []
    rw [List.foldl_cons, List.foldl_cons]
    exact foldl_absStep_eq_specStep tail [] ht (by intro c hc; simp at hc)
  | normal s =>
    show (Component.normal s :: tail).foldl absStep []
      = (Component.normal s :: tail).foldl specStep []
    rw [List.foldl_cons, List.foldl_cons]
    rw [show absStep [] (Component.normal s)
          = [Component.normal s] from rfl,
        show specStep [] (Component.normal s)
          = [Component.normal s] from rfl]
    refine foldl_absStep_eq_specStep tail _ ht ?_
    intro c hc
    simp at hc
    rw [hc]
    rfl

theorem absComps_eq_specNormalize (s : String) :
    absComps (componentsOf s) = specNormalize (componentsOf s) := by
  unfold componentsOf
  by_cases habs : isAbsString s = true
  · simp only [habs, if_true]
    show (Component.rootDir :: (rawSegs s).filterMap tailComp).foldl absStep []
      = (Component.rootDir :: (rawSegs s).filterMap tailComp).foldl specStep []
    rw [List.foldl_cons, List.foldl_cons]
    rw [show absStep [] Component.rootDir = [Component.rootDir] from rfl,
        show specStep [] Component.rootDir = [Component.rootDir] from rfl]
    refine foldl_absStep_eq_specStep _ _ (filterMap_tailComp_plain _) ?_
    intro c hc
    simp at hc
    rw [hc]
    rfl
  · simp only [habs]
    simp only [Bool.not_eq_true] at habs
    simp only [habs, Bool.false_eq_true, if_false]
    cases hr : rawSegs s with
    | nil => rfl
    | cons seg rest =>
      exact absComps_eq_of_plain_head (segToComp seg) (rest.filterMap tailComp)
        (segToComp_plain seg) (filterMap_tailComp_plain rest)

theorem isAbs_of_components_root (s : String) (rest : List Component)
    (h : componentsOf s = Component.rootDir :: rest) :
    isAbsString s = true := by
  by_cases habs : isAbsString s = true
  · exact habs
  · exfalso
    unfold componentsOf at h
    simp only [Bool.not_eq_true] at habs
    simp only [habs, Bool.false_eq_true, if_false] at h
    cases hr : rawSegs s with
    | nil =>
      rw [hr] at h
      cases h
    | cons seg rest2 =>
      rw [hr] at h
      injection h with h1 _
      have h2 := segToComp_plain seg
      rw [h1] at h2
      simp [plainComp] at h2

/-! ### C7 -/

/-- C7: on a path that does not exist, `abs` succeeds with the lexical
normalization described by the spec (prefix preserved, RootDir
appended, CurDir dropped, ParentDir pops with no-op past the root,
normal components appended) of the path joined to the current working
directory when relative; in particular, for a normalized absolute
`cwd`, `abs "a/../b"` equals `abs cwd` with `b` appended, and
`abs "/x/./y"` equals the path `/x/y`. -/
theorem c7_abs_normalization (ex : String → Bool)
    (canon : String → Option (List Component)) (cwd cwd2 : String)
    (ws : List String)
    (hcwd : componentsOf cwd
      = Component.rootDir :: ws.map Component.normal)
    (hex1 : ex "a/../b" = false) (hex2 : ex "/x/./y" = false)
    (hexc : ex cwd = true)
    (hcanon : canon cwd = some (componentsOf cwd)) :
    (∀ p, ex p = false → abs ex canon cwd p
      = some (specNormalize (componentsOf
          (if isAbsString p then p else joinString cwd p)))) ∧
    abs ex canon cwd2 cwd
      = some (Component.rootDir :: ws.map Component.normal) ∧
    abs ex canon cwd "a/../b"
      = some (Component.rootDir :: ws.map Component.normal
          ++ [Component.normal "b"]) ∧
    abs ex canon cwd "/x/./y" = some (componentsOf "/x/y") := by
  have habs_cwd : isAbsString cwd = true :=
    isAbs_of_components_root cwd _ hcwd
  refine ⟨?_, ?_, ?_, ?_⟩
  · intro p hp
    simp only [abs, hp, Bool.false_eq_true, if_false]
    rw [absComps_eq_specNormalize]
  · simp only [abs, hexc, if_true]
    rw [hcanon, hcwd]
  · have h1 : isAbsString "a/../b" = false := by decide
    simp only [abs, hex1, Bool.false_eq_true, if_false, h1]
    rw [componentsOf_join cwd "a/../b" habs_cwd, hcwd]
    have h2 : (rawSegs "a/../b").filterMap tailComp
        = [Component.normal "a", Component.parentDir,
           Component.normal "b"] := by decide
    rw [h2]
    congr 1
    rw [List.cons_append]
    show (Component.rootDir :: (ws.map Component.normal
        ++ [Component.normal "a", Component.parentDir,
            Component.normal "b"])).foldl absStep [] = _
    rw [List.foldl_cons,
        show absStep [] Component.rootDir = [Component.rootDir] from rfl]
    rw [List.foldl_append]
    rw [foldl_absStep_normals ws [Component.rootDir]]
    simp only [List.foldl_cons, List.foldl_nil]
    rw [show ∀ acc, absStep acc (Component.normal "a")
          = acc ++ [Component.normal "a"] from fun _ => rfl]
    rw [show ∀ acc, absStep acc Component.parentDir
          = popLast acc from fun _ => rfl]
    have hpop : popLast (([Component.rootDir] ++ ws.map Component.normal)
          ++ [Component.normal "a"])
        = [Component.rootDir] ++ ws.map Component.normal := by
      unfold popLast
      rw [List.getLast?_concat]
      exact List.dropLast_concat
    rw [hpop]
    rw [show ∀ acc, absStep acc (Component.normal "b")
          = acc ++ [Component.normal "b"] from fun _ => rfl]
    simp
  · have h1 : isAbsString "/x/./y" = true := by decide
    simp only [abs, hex2, Bool.false_eq_true, if_false, h1, if_true]
    decide

theorem c7_witness :
    (abs exHome canonHome "/home" "q/w"
      = some (specNormalize (componentsOf
          (if isAbsString "q/w" then "q/w"
           else joinString "/home" "q/w")))) ∧
    abs exHome canonHome "/tmp" "/home"
      = some (Component.rootDir :: (["home"].map Component.normal)) ∧
    abs exHome canonHome "/home" "a/../b"
      = some (Component.rootDir :: (["home"].map Component.normal)
          ++ [Component.normal "b"]) ∧
    abs exHome canonHome "/home" "/x/./y" = some (componentsOf "/x/y") := by
  have h := c7_abs_normalization exHome canonHome "/home" "/tmp" ["home"]
    (by decide) (by decide) (by decide) (by decide) (by decide)
  exact ⟨h.1 "q/w" (by decide), h.2.1, h.2.2.1, h.2.2.2⟩

end Zsnip
